import Mathlib

/-!
A verification development for the coil solution checker (`coil_check/check.c`).

The checker reads a board in the wire format `x=<W>&y=<H>&board=<chars>`
('X' = wall, '.' = open), builds a (W+2)×(H+2) grid with a blocked sentinel
border (the C program uses `calloc`, so border cells are 0 = blocked), and
replays a solution `x=<sx>&y=<sy>&path=<tokens>` or `...&qpath=<tokens>`
against it.  We embed the grid as a `List Bool` (`true` = open), the current
position as a flat index into that list, and the four direction offsets as the
signed deltas `{-1, -w, 1, w}` from the C `delta` table.  The open-cell
counter `n` is a C `u4`; we model it as `Nat` with truncated subtraction,
which agrees with the 32-bit counter on every state reachable from a loaded
board (the counter is proven to equal the number of open cells, which is
positive at each decrement).  The C loops are embedded as fueled structural
recursions; the fuel (one more than the number of open cells) is proven
sufficient, so the fueled functions satisfy the loops' natural unfolding
equations and still evaluate on concrete inputs.
-/

namespace Coil

/-- The four movement directions, in the index order of the C `delta` array:
`delta[0] = -1` (left), `delta[1] = -w` (up), `delta[2] = 1` (right),
`delta[3] = w` (down). -/
inductive Dir where
  | left
  | up
  | right
  | down
deriving DecidableEq

/-- The signed flat-buffer offset of a direction, as in
`s4 const delta[] = { -1, -(s4)w, 1, (s4)w }`. -/
def delta (w : Nat) : Dir → Int
  | Dir.left => -1
  | Dir.up => -(w : Int)
  | Dir.right => 1
  | Dir.down => (w : Int)

/-- Token interpretation from the `switch (fgetc(g))` in the replay loop:
`'L'`, `'U'`, `'R'`, `'D'` select a delta; anything else is not a direction. -/
def dirOfChar : Char → Option Dir
  | 'L' => some Dir.left
  | 'U' => some Dir.up
  | 'R' => some Dir.right
  | 'D' => some Dir.down
  | _ => none

/-- The direction characters, inverse of `dirOfChar` on directions. -/
def dirChar : Dir → Char
  | Dir.left => 'L'
  | Dir.up => 'U'
  | Dir.right => 'R'
  | Dir.down => 'D'

/-- The `'\r'`/`'\n'` cases of the token switch: they end the path like EOF. -/
def isEol (c : Char) : Bool := c = '\r' || c = '\n'

/-- Cell lookup at a signed flat index, as the C `i[d]` pointer read.
Out-of-buffer reads (which the sentinel border makes unreachable, see the
claim about the border invariant) are totalized to `blocked`. -/
def cellAt (b : List Bool) (j : Int) : Bool :=
  if j < 0 then false else b.getD j.toNat false

/-- Cell write at a signed flat index, as the C `*i = c` store. -/
def setAt (b : List Bool) (j : Int) (v : Bool) : List Bool :=
  if j < 0 then b else b.set j.toNat v

/-- Board-character interpretation from the `switch (fgetc(f))` of the board
reader: `'X'` is a wall (0), `'.'` is open (1), anything else is an error. -/
def charCell : Char → Option Bool
  | 'X' => some false
  | '.' => some true
  | _ => none

/-- Read exactly `m` board cells from the character stream, failing on an
invalid character or a too-short board, as the nested `fgetc` loop does. -/
def parseCells : Nat → List Char → Option (List Bool)
  | 0, _ => some []
  | _ + 1, [] => none
  | m + 1, c :: cs =>
    match charCell c, parseCells m cs with
    | some v, some vs => some (v :: vs)
    | _, _ => none

/-- The playable rows of the bordered grid: each row `y` of the board becomes
`false :: row ++ [false]` (left and right border cells), matching the fill of
`b[y*w+x]` for `x` in `[1, w-2]` with `calloc`ed zero cells elsewhere. -/
def gridRows (W : Nat) : Nat → List Bool → List Bool
  | 0, _ => []
  | hh + 1, vs => (false :: (vs.take W ++ [false])) ++ gridRows W hh (vs.drop W)

/-- The bordered `(H+2)*(W+2)` grid: an all-blocked top row, the playable
rows, and an all-blocked bottom row. -/
def borderedGrid (W H : Nat) (vs : List Bool) : List Bool :=
  List.replicate (W + 2) false ++ (gridRows W H vs ++ List.replicate (W + 2) false)

/-- Board loading: parse `W*H` cells row-major and build the bordered grid,
returning it together with the open-cell count `n` (the C code increments `n`
once per `'.'`). -/
def loadBoard (W H : Nat) (cs : List Char) : Option (List Bool × Nat) :=
  match parseCells (W * H) cs with
  | some vs => some (borderedGrid W H vs, vs.count true)
  | none => none

/-- The replay state: mutable grid `b`, remaining open-cell counter `n`
(a C `u4`, modeled as `Nat`; see the file comment), and the current flat
position `i` (the C pointer `i` as an offset from `b`). -/
structure St where
  b : List Bool
  n : Nat
  i : Nat
deriving DecidableEq

/-- Terminal outcomes of the replay loop: `success` (exit 0), the
`"direction is blocked"` error, the `"invalid char in path"` error, and the
`"path misses %u fields"` error carrying the remaining count. -/
inductive Outcome where
  | success
  | incomplete (missed : Nat)
  | blocked
  | invalidChar
deriving DecidableEq

/-- The `end_of_path` logic: success iff `n == 0`, else report `n`. -/
def endOutcome (s : St) : St × Outcome :=
  (s, if s.n = 0 then Outcome.success else Outcome.incomplete s.n)

/-- One step of the forced run body: `n -= 1; i += d; *i = 0;`. -/
def forcedStep (s : St) (d : Int) : St :=
  { b := setAt s.b ((s.i : Int) + d) false, n := s.n - 1, i := ((s.i : Int) + d).toNat }

/-- The fueled `while (i[d])` continuation of the forced-run do-while loop. -/
def runWhileF (d : Int) : Nat → St → St
  | 0, s => s
  | f + 1, s =>
    if cellAt s.b ((s.i : Int) + d) then runWhileF d f (forcedStep s d) else s

/-- The `while (i[d])` continuation with sufficient fuel (each iteration
blocks one open cell, so one more than the open-cell count suffices). -/
def runWhile (s : St) (d : Int) : St :=
  runWhileF d (s.b.count true + 1) s

/-- The complete forced run `do { n -= 1; i += d; *i = 0; } while (i[d]);`:
the body once, then the guarded continuation. -/
def forcedRun (s : St) (d : Int) : St :=
  runWhile (forcedStep s d) d

/-- The auto-extension scan (`// Check if there is only one free direction.`):
find the first open neighbor in the order `delta[0..3]` = L, U, R, D; no open
neighbor means a decision (token) is needed; a first open neighbor `L` (resp.
`U`) with `R` (resp. `D`) also open is ambiguous, again forcing a decision;
otherwise commit to that first open direction. -/
def autoExt (w : Nat) (b : List Bool) (i : Nat) : Option Dir :=
  if cellAt b ((i : Int) + delta w Dir.left) then
    if cellAt b ((i : Int) + delta w Dir.right) then none else some Dir.left
  else if cellAt b ((i : Int) + delta w Dir.up) then
    if cellAt b ((i : Int) + delta w Dir.down) then none else some Dir.up
  else if cellAt b ((i : Int) + delta w Dir.right) then some Dir.right
  else if cellAt b ((i : Int) + delta w Dir.down) then some Dir.down
  else none

/-- The fueled inner `for (;;)` loop of the replay: a forced run, then (in
compressed mode) auto-extension, committing to deduced directions without
consuming tokens until a decision point. -/
def runAutoF (w : Nat) (cp : Bool) : Nat → St → Int → St
  | 0, s, _ => s
  | f + 1, s, d =>
    if cp then
      match autoExt w (forcedRun s d).b (forcedRun s d).i with
      | none => forcedRun s d
      | some k => runAutoF w cp f (forcedRun s d) (delta w k)
    else forcedRun s d

/-- The inner loop with sufficient fuel. -/
def runAuto (w : Nat) (cp : Bool) (s : St) (d : Int) : St :=
  runAutoF w cp (s.b.count true + 1) s d

/-- The outer replay loop over the token characters: read a token; `L/U/R/D`
move (after the `if (!i[d])` blocked check), end-of-list or `'\r'`/`'\n'`
reach `end_of_path`, anything else is an invalid character. -/
def replay (w : Nat) (cp : Bool) : St → List Char → St × Outcome
  | s, [] => endOutcome s
  | s, c :: cs =>
    match dirOfChar c with
    | some k =>
      if cellAt s.b ((s.i : Int) + delta w k) then
        replay w cp (runAuto w cp s (delta w k)) cs
      else (s, Outcome.blocked)
    | none => if isEol c then endOutcome s else (s, Outcome.invalidChar)

/-- The bordered start index `&b[(start_y+1)*w + (start_x+1)]`. -/
def startIndex (W sx sy : Nat) : Nat :=
  (sy + 1) * (W + 2) + (sx + 1)

/-- The initial state after `n -= 1; *i = 0;` at the (open) start cell. -/
def initState (W : Nat) (b : List Bool) (n sx sy : Nat) : St :=
  { b := setAt b (startIndex W sx sy) false, n := n - 1, i := startIndex W sx sy }

/-- Results of checking a solution against a loaded board: the
`"start position not on board"` error, the `"start position is blocked"`
error, or a finished replay with its final state and outcome. -/
inductive CheckResult where
  | startNotOnBoard
  | startBlocked
  | run (final : St) (o : Outcome)
deriving DecidableEq

/-- The checker body after parsing: start bounds check, start-cell check,
then the replay loop. -/
def checkSolution (W H : Nat) (b : List Bool) (n sx sy : Nat) (cp : Bool)
    (path : List Char) : CheckResult :=
  if sy ≥ H ∨ sx ≥ W then CheckResult.startNotOnBoard
  else if cellAt b ((startIndex W sx sy : Nat) : Int) = false then CheckResult.startBlocked
  else
    CheckResult.run (replay (W + 2) cp (initState W b n sx sy) path).1
      (replay (W + 2) cp (initState W b n sx sy) path).2

/-- The whole pipeline on board text plus solution data. -/
def checkFiles (W H : Nat) (boardText : List Char) (sx sy : Nat) (cp : Bool)
    (path : List Char) : Option CheckResult :=
  (loadBoard W H boardText).map fun p => checkSolution W H p.1 p.2 sx sy cp path

/-- Outcome of a finished run, if any. -/
def resultOutcome : Option CheckResult → Option Outcome
  | some (CheckResult.run _ o) => some o
  | _ => none

/-- Remaining counter of a finished run, if any. -/
def resultRemaining : Option CheckResult → Option Nat
  | some (CheckResult.run s _) => some s.n
  | _ => none

/-- The state after replaying a `k`-token prefix of the path. -/
def prefixState (W : Nat) (b : List Bool) (n sx sy : Nat) (cp : Bool)
    (path : List Char) (k : Nat) : St :=
  (replay (W + 2) cp (initState W b n sx sy) (path.take k)).1

/-! ### Generic list lemmas -/

theorem getD_append_split (l1 l2 : List Bool) (j : Nat) :
    (l1 ++ l2).getD j false =
      if j < l1.length then l1.getD j false else l2.getD (j - l1.length) false := by
  induction l1 generalizing j with
  | nil => simp
  | cons x l ih =>
    cases j with
    | zero => simp
    | succ j =>
      simpa [Nat.succ_lt_succ_iff, Nat.succ_sub_succ] using ih j

theorem getD_replicate_false (m j : Nat) :
    (List.replicate m false).getD j false = false := by
  induction m generalizing j with
  | zero => simp
  | succ m ih =>
    cases j with
    | zero => simp [List.replicate_succ]
    | succ j => simp [List.replicate_succ, ih j]

theorem count_true_replicate_false (m : Nat) :
    (List.replicate m false).count true = 0 := by
  induction m with
  | zero => simp
  | succ m ih => simp [List.replicate_succ, List.count_cons, ih]

theorem count_set_false_le (l : List Bool) (p : Nat) :
    (l.set p false).count true ≤ l.count true := by
  induction l generalizing p with
  | nil => simp
  | cons x l ih =>
    cases p with
    | zero => cases x <;> simp [List.count_cons]
    | succ p =>
      cases x <;> simp only [List.set_cons_succ, List.count_cons] <;>
        exact Nat.add_le_add_right (ih p) _

theorem count_set_false_of_true (l : List Bool) (p : Nat)
    (h : l.getD p false = true) : (l.set p false).count true + 1 = l.count true := by
  induction l generalizing p with
  | nil => simp at h
  | cons x l ih =>
    cases p with
    | zero =>
      simp only [List.getD_cons_zero] at h
      subst h
      simp [List.count_cons]
    | succ p =>
      simp only [List.getD_cons_succ] at h
      have := ih p h
      cases x <;> simp [List.count_cons] <;> omega

theorem getD_true_of_set_false (l : List Bool) (p j : Nat)
    (h : (l.set p false).getD j false = true) : l.getD j false = true := by
  induction l generalizing p j with
  | nil => simp at h
  | cons x l ih =>
    cases p with
    | zero =>
      cases j with
      | zero => simp at h
      | succ j => simpa using h
    | succ p =>
      cases j with
      | zero => simpa using h
      | succ j => exact ih p j (by simpa using h)

theorem count_pos_of_getD (l : List Bool) (j : Nat)
    (h : l.getD j false = true) : 0 < l.count true := by
  induction l generalizing j with
  | nil => simp at h
  | cons x l ih =>
    cases j with
    | zero =>
      simp only [List.getD_cons_zero] at h
      subst h
      simp [List.count_cons]
    | succ j =>
      have := ih j (by simpa using h)
      simp only [List.count_cons]
      omega

theorem getD_eq_false_of_count_zero (l : List Bool)
    (h : l.count true = 0) (j : Nat) : l.getD j false = false := by
  induction l generalizing j with
  | nil => simp
  | cons x l ih =>
    simp only [List.count_cons] at h
    cases x with
    | true => simp at h
    | false =>
      cases j with
      | zero => simp
      | succ j => exact ih (by omega) j

theorem drop_eq_cons_of_get? (l : List Char) (k : Nat) (c : Char)
    (h : l.get? k = some c) : l.drop k = c :: l.drop (k + 1) := by
  induction l generalizing k with
  | nil => simp at h
  | cons x l ih =>
    cases k with
    | zero =>
      simp only [List.get?_cons_zero, Option.some.injEq] at h
      subst h
      simp
    | succ k => simpa using ih k (by simpa using h)

/-! ### Lemmas on cell access and update -/

theorem cellAt_elim (b : List Bool) (j : Int) (h : cellAt b j = true) :
    0 ≤ j ∧ b.getD j.toNat false = true := by
  unfold cellAt at h
  split at h
  · exact absurd h (by simp)
  · exact ⟨by omega, h⟩

theorem cellAt_nat (b : List Bool) (p : Nat) :
    cellAt b (p : Int) = b.getD p false := by
  unfold cellAt
  simp

theorem length_setAt (b : List Bool) (j : Int) (v : Bool) :
    (setAt b j v).length = b.length := by
  unfold setAt
  split <;> simp

theorem count_setAt_false_le (b : List Bool) (j : Int) :
    (setAt b j false).count true ≤ b.count true := by
  unfold setAt
  split
  · exact le_refl _
  · exact count_set_false_le b j.toNat

theorem count_setAt_false_of_true (b : List Bool) (j : Int)
    (h : cellAt b j = true) :
    (setAt b j false).count true + 1 = b.count true := by
  obtain ⟨h0, hg⟩ := cellAt_elim b j h
  unfold setAt
  split
  · omega
  · exact count_set_false_of_true b j.toNat hg

theorem cellAt_true_of_setAt (b : List Bool) (p j : Int)
    (h : cellAt (setAt b p false) j = true) : cellAt b j = true := by
  unfold setAt at h
  split at h
  · exact h
  · obtain ⟨h0, hg⟩ := cellAt_elim _ j h
    have := getD_true_of_set_false b p.toNat j.toNat hg
    unfold cellAt
    simp only [if_neg (by omega : ¬ j < 0)]
    exact this

theorem count_pos_of_cellAt (b : List Bool) (j : Int)
    (h : cellAt b j = true) : 0 < b.count true := by
  obtain ⟨_, hg⟩ := cellAt_elim b j h
  exact count_pos_of_getD b j.toNat hg

theorem cellAt_false_of_count_zero (b : List Bool)
    (h : b.count true = 0) (j : Int) : cellAt b j = false := by
  unfold cellAt
  split
  · rfl
  · exact getD_eq_false_of_count_zero b h j.toNat

/-! ### Open-cell counts along the loops, and fuel sufficiency -/

theorem forcedStep_count_le (s : St) (d : Int) :
    (forcedStep s d).b.count true ≤ s.b.count true :=
  count_setAt_false_le s.b ((s.i : Int) + d)

theorem forcedStep_count_lt (s : St) (d : Int)
    (h : cellAt s.b ((s.i : Int) + d) = true) :
    (forcedStep s d).b.count true < s.b.count true := by
  have := count_setAt_false_of_true s.b ((s.i : Int) + d) h
  show (setAt s.b ((s.i : Int) + d) false).count true < s.b.count true
  omega

theorem runWhileF_count_le (d : Int) :
    ∀ (f : Nat) (s : St), (runWhileF d f s).b.count true ≤ s.b.count true := by
  intro f
  induction f with
  | zero => intro s; exact le_refl _
  | succ f ih =>
    intro s
    unfold runWhileF
    split
    · exact le_trans (ih (forcedStep s d)) (forcedStep_count_le s d)
    · exact le_refl _

theorem forcedRun_count_le (s : St) (d : Int) :
    (forcedRun s d).b.count true ≤ s.b.count true :=
  le_trans (runWhileF_count_le d _ (forcedStep s d)) (forcedStep_count_le s d)

theorem forcedRun_count_lt (s : St) (d : Int)
    (h : cellAt s.b ((s.i : Int) + d) = true) :
    (forcedRun s d).b.count true < s.b.count true :=
  lt_of_le_of_lt (runWhileF_count_le d _ (forcedStep s d)) (forcedStep_count_lt s d h)

theorem autoExt_open (w : Nat) (b : List Bool) (i : Nat) (k : Dir)
    (h : autoExt w b i = some k) : cellAt b ((i : Int) + delta w k) = true := by
  unfold autoExt at h
  split_ifs at h <;> simp_all

theorem runWhileF_mono (d : Int) :
    ∀ (f g : Nat) (s : St), s.b.count true < f → s.b.count true < g →
      runWhileF d f s = runWhileF d g s
  | 0, _, s, hf, _ => absurd hf (Nat.not_lt_zero _)
  | _ + 1, 0, s, _, hg => absurd hg (Nat.not_lt_zero _)
  | f + 1, g + 1, s, hf, hg => by
    unfold runWhileF
    by_cases h : cellAt s.b ((s.i : Int) + d) = true
    · have hlt := forcedStep_count_lt s d h
      simp only [h, if_true]
      exact runWhileF_mono d f g (forcedStep s d) (by omega) (by omega)
    · simp only [Bool.not_eq_true] at h
      simp [h]

theorem runWhile_eq (s : St) (d : Int) :
    runWhile s d =
      if cellAt s.b ((s.i : Int) + d) then runWhile (forcedStep s d) d else s := by
  unfold runWhile
  by_cases h : cellAt s.b ((s.i : Int) + d) = true
  · have hlt := forcedStep_count_lt s d h
    simp only [h, if_true]
    conv_lhs => rw [runWhileF]
    simp only [h, if_true]
    exact runWhileF_mono d _ _ (forcedStep s d) (by omega) (by omega)
  · simp only [Bool.not_eq_true] at h
    conv_lhs => rw [runWhileF]
    simp [h]

theorem runAutoF_mono (w : Nat) (cp : Bool) :
    ∀ (f g : Nat) (s : St) (d : Int), cellAt s.b ((s.i : Int) + d) = true →
      s.b.count true < f → s.b.count true < g →
      runAutoF w cp f s d = runAutoF w cp g s d
  | 0, _, s, d, _, hf, _ => absurd hf (Nat.not_lt_zero _)
  | _ + 1, 0, s, d, _, _, hg => absurd hg (Nat.not_lt_zero _)
  | f + 1, g + 1, s, d, h, hf, hg => by
    unfold runAutoF
    cases cp with
    | false => simp
    | true =>
      simp only [if_true]
      cases hx : autoExt w (forcedRun s d).b (forcedRun s d).i with
      | none => rfl
      | some k =>
        have hlt := forcedRun_count_lt s d h
        have hopen := autoExt_open w (forcedRun s d).b (forcedRun s d).i k hx
        exact runAutoF_mono w true f g (forcedRun s d) (delta w k) hopen (by omega) (by omega)

theorem runAuto_false (w : Nat) (s : St) (d : Int) :
    runAuto w false s d = forcedRun s d := by
  unfold runAuto
  rw [runAutoF]
  simp

theorem runAuto_true_eq (w : Nat) (s : St) (d : Int)
    (h : cellAt s.b ((s.i : Int) + d) = true) :
    runAuto w true s d =
      match autoExt w (forcedRun s d).b (forcedRun s d).i with
      | none => forcedRun s d
      | some k => runAuto w true (forcedRun s d) (delta w k) := by
  unfold runAuto
  conv_lhs => rw [runAutoF]
  simp only [if_true]
  cases hx : autoExt w (forcedRun s d).b (forcedRun s d).i with
  | none => rfl
  | some k =>
    have hlt := forcedRun_count_lt s d h
    have hopen := autoExt_open w (forcedRun s d).b (forcedRun s d).i k hx
    exact runAutoF_mono w true _ _ (forcedRun s d) (delta w k) hopen (by omega) (by omega)

/-! ### The auto-extension chain from a decision boundary

In compressed mode, the inner loop after a forced run is exactly an
auto-extension chain: keep committing to deduced directions (each with its
own forced run) until the scan demands a decision.  `chain` captures this
boundary-to-boundary behavior; `runAuto` in compressed mode is a forced run
followed by a chain. -/

/-- Fueled auto-extension chain. -/
def chainF (w : Nat) : Nat → St → St
  | 0, s => s
  | f + 1, s =>
    match autoExt w s.b s.i with
    | none => s
    | some k => chainF w f (forcedRun s (delta w k))

/-- The auto-extension chain with sufficient fuel. -/
def chain (w : Nat) (s : St) : St :=
  chainF w (s.b.count true + 1) s

theorem chainF_mono (w : Nat) :
    ∀ (f g : Nat) (s : St), s.b.count true < f → s.b.count true < g →
      chainF w f s = chainF w g s
  | 0, _, s, hf, _ => absurd hf (Nat.not_lt_zero _)
  | _ + 1, 0, s, _, hg => absurd hg (Nat.not_lt_zero _)
  | f + 1, g + 1, s, hf, hg => by
    unfold chainF
    cases hx : autoExt w s.b s.i with
    | none => rfl
    | some k =>
      have hopen := autoExt_open w s.b s.i k hx
      have hlt := forcedRun_count_lt s (delta w k) hopen
      exact chainF_mono w f g (forcedRun s (delta w k)) (by omega) (by omega)

theorem chain_eq (w : Nat) (s : St) :
    chain w s =
      match autoExt w s.b s.i with
      | none => s
      | some k => chain w (forcedRun s (delta w k)) := by
  unfold chain
  conv_lhs => rw [chainF]
  cases hx : autoExt w s.b s.i with
  | none => rfl
  | some k =>
    have hopen := autoExt_open w s.b s.i k hx
    have hlt := forcedRun_count_lt s (delta w k) hopen
    exact chainF_mono w _ _ (forcedRun s (delta w k)) (by omega) (by omega)

theorem runAuto_true_eq_chain (w : Nat) :
    ∀ (m : Nat) (s : St) (d : Int), s.b.count true ≤ m →
      cellAt s.b ((s.i : Int) + d) = true →
      runAuto w true s d = chain w (forcedRun s d)
  | 0, s, d, hm, h => absurd (count_pos_of_cellAt s.b _ h) (by omega)
  | m + 1, s, d, hm, h => by
    rw [runAuto_true_eq w s d h, chain_eq]
    cases hx : autoExt w (forcedRun s d).b (forcedRun s d).i with
    | none => rfl
    | some k =>
      have hopen := autoExt_open w (forcedRun s d).b (forcedRun s d).i k hx
      have hlt := forcedRun_count_lt s d h
      exact runAuto_true_eq_chain w m (forcedRun s d) (delta w k) (by omega) hopen

/-! ### The counter invariant: `n` equals the number of open cells -/

/-- The claimed counter invariant: the `u4` counter `n` always equals the
number of open cells of the mutable grid. -/
def InvCount (s : St) : Prop := s.n = s.b.count true

theorem forcedStep_inv (s : St) (d : Int)
    (h : cellAt s.b ((s.i : Int) + d) = true) (hi : InvCount s) :
    InvCount (forcedStep s d) := by
  have := count_setAt_false_of_true s.b ((s.i : Int) + d) h
  unfold InvCount at hi ⊢
  show s.n - 1 = (setAt s.b ((s.i : Int) + d) false).count true
  omega

theorem runWhileF_inv (d : Int) :
    ∀ (f : Nat) (s : St), InvCount s → InvCount (runWhileF d f s) := by
  intro f
  induction f with
  | zero => intro s hi; exact hi
  | succ f ih =>
    intro s hi
    unfold runWhileF
    split
    · next h => exact ih (forcedStep s d) (forcedStep_inv s d h hi)
    · exact hi

theorem forcedRun_inv (s : St) (d : Int)
    (h : cellAt s.b ((s.i : Int) + d) = true) (hi : InvCount s) :
    InvCount (forcedRun s d) :=
  runWhileF_inv d _ (forcedStep s d) (forcedStep_inv s d h hi)

theorem runAutoF_inv (w : Nat) (cp : Bool) :
    ∀ (f : Nat) (s : St) (d : Int), cellAt s.b ((s.i : Int) + d) = true →
      InvCount s → InvCount (runAutoF w cp f s d) := by
  intro f
  induction f with
  | zero => intro s d _ hi; exact hi
  | succ f ih =>
    intro s d h hi
    unfold runAutoF
    cases cp with
    | false => exact forcedRun_inv s d h hi
    | true =>
      simp only [if_true]
      cases hx : autoExt w (forcedRun s d).b (forcedRun s d).i with
      | none => exact forcedRun_inv s d h hi
      | some k =>
        exact ih (forcedRun s d) (delta w k) (autoExt_open _ _ _ k hx)
          (forcedRun_inv s d h hi)

theorem runAuto_inv (w : Nat) (cp : Bool) (s : St) (d : Int)
    (h : cellAt s.b ((s.i : Int) + d) = true) (hi : InvCount s) :
    InvCount (runAuto w cp s d) :=
  runAutoF_inv w cp _ s d h hi

theorem replay_inv (w : Nat) (cp : Bool) :
    ∀ (cs : List Char) (s : St), InvCount s → InvCount ((replay w cp s cs).1) := by
  intro cs
  induction cs with
  | nil => intro s hi; exact hi
  | cons c cs ih =>
    intro s hi
    unfold replay
    cases hk : dirOfChar c with
    | some k =>
      by_cases h : cellAt s.b ((s.i : Int) + delta w k) = true
      · simp only [h, if_true]
        exact ih (runAuto w cp s (delta w k)) (runAuto_inv w cp s (delta w k) h hi)
      · simp only [Bool.not_eq_true] at h
        simp only [h]
        exact hi
    | none =>
      by_cases he : isEol c = true <;> simp [he] <;> exact hi

/-! ### Step equations and shape of the replay outcome -/

theorem replay_nil (w : Nat) (cp : Bool) (s : St) :
    replay w cp s [] = endOutcome s := rfl

theorem replay_cons_dir (w : Nat) (cp : Bool) (s : St) (c : Char)
    (cs : List Char) (k : Dir) (hk : dirOfChar c = some k) :
    replay w cp s (c :: cs) =
      if cellAt s.b ((s.i : Int) + delta w k) then
        replay w cp (runAuto w cp s (delta w k)) cs
      else (s, Outcome.blocked) := by
  conv_lhs => unfold replay
  rw [hk]

theorem replay_cons_eol (w : Nat) (cp : Bool) (s : St) (c : Char)
    (cs : List Char) (hk : dirOfChar c = none) (he : isEol c = true) :
    replay w cp s (c :: cs) = endOutcome s := by
  unfold replay
  rw [hk]
  simp [he]

theorem replay_cons_bad (w : Nat) (cp : Bool) (s : St) (c : Char)
    (cs : List Char) (hk : dirOfChar c = none) (he : isEol c = false) :
    replay w cp s (c :: cs) = (s, Outcome.invalidChar) := by
  unfold replay
  rw [hk]
  simp [he]

theorem endOutcome_shape (s : St) :
    endOutcome s =
      (s, if s.n = 0 then Outcome.success else Outcome.incomplete s.n) := rfl

theorem replay_end_shape (w : Nat) (cp : Bool) :
    ∀ (cs : List Char) (s : St), (replay w cp s cs).2 ≠ Outcome.blocked →
      (replay w cp s cs).2 ≠ Outcome.invalidChar →
      (replay w cp s cs).2 =
        (if (replay w cp s cs).1.n = 0 then Outcome.success
          else Outcome.incomplete (replay w cp s cs).1.n) := by
  intro cs
  induction cs with
  | nil => intro s _ _; rfl
  | cons c cs ih =>
    intro s hb hi
    cases hk : dirOfChar c with
    | some k =>
      rw [replay_cons_dir w cp s c cs k hk] at hb hi ⊢
      by_cases h : cellAt s.b ((s.i : Int) + delta w k) = true
      · simp only [h, if_true] at hb hi ⊢
        exact ih (runAuto w cp s (delta w k)) hb hi
      · simp only [Bool.not_eq_true] at h
        simp only [h] at hb
        simp at hb
    | none =>
      by_cases he : isEol c = true
      · rw [replay_cons_eol w cp s c cs hk he]
        rfl
      · rw [replay_cons_bad w cp s c cs hk (by simpa using he)] at hi
        simp at hi

theorem replay_append (w : Nat) (cp : Bool) :
    ∀ (l1 l2 : List Char) (s : St),
      (∀ c ∈ l1, (dirOfChar c).isSome = true) →
      (replay w cp s l1).2 ≠ Outcome.blocked →
      replay w cp s (l1 ++ l2) = replay w cp ((replay w cp s l1).1) l2 := by
  intro l1
  induction l1 with
  | nil => intro l2 s _ _; rfl
  | cons c l1 ih =>
    intro l2 s hall hb
    obtain ⟨k, hk⟩ := Option.isSome_iff_exists.mp (hall c (List.mem_cons_self c l1))
    rw [replay_cons_dir w cp s c l1 k hk] at hb
    rw [List.cons_append, replay_cons_dir w cp s c (l1 ++ l2) k hk,
      replay_cons_dir w cp s c l1 k hk]
    by_cases h : cellAt s.b ((s.i : Int) + delta w k) = true
    · simp only [h, if_true] at hb ⊢
      exact ih l2 (runAuto w cp s (delta w k))
        (fun c' hc' => hall c' (List.mem_cons_of_mem c hc')) hb
    · simp only [Bool.not_eq_true] at h
      simp only [h] at hb
      simp at hb

/-! ### Facts about the loaded board: size, count, sentinel border -/

/-- A flat index that lies strictly inside the playable area of the bordered
`(H+2)×(W+2)` grid: column `x ∈ [1, W]`, row `y ∈ [1, H]`. -/
def InteriorIdx (W H j : Nat) : Prop :=
  ∃ x y, 1 ≤ x ∧ x ≤ W ∧ 1 ≤ y ∧ y ≤ H ∧ j = y * (W + 2) + x

/-- Well-formedness of the bordered grid during replay: it has the allocated
size, and every open cell is interior (equivalently: every sentinel border
cell, and everything outside, is blocked). -/
def GridOK (W H : Nat) (b : List Bool) : Prop :=
  b.length = (H + 2) * (W + 2) ∧ ∀ j : Nat, b.getD j false = true → InteriorIdx W H j

theorem parseCells_length :
    ∀ (m : Nat) (cs : List Char) (vs : List Bool),
      parseCells m cs = some vs → vs.length = m
  | 0, _, vs, h => by
    simp only [parseCells, Option.some.injEq] at h
    subst h
    rfl
  | m + 1, [], vs, h => by simp [parseCells] at h
  | m + 1, c :: cs, vs, h => by
    simp only [parseCells] at h
    cases hc : charCell c with
    | none => rw [hc] at h; simp at h
    | some v =>
      rw [hc] at h
      cases hp : parseCells m cs with
      | none => rw [hp] at h; simp at h
      | some vs' =>
        rw [hp] at h
        simp only [Option.some.injEq] at h
        subst h
        simp [parseCells_length m cs vs' hp]

theorem gridRows_length (W : Nat) :
    ∀ (H : Nat) (vs : List Bool), vs.length = W * H →
      (gridRows W H vs).length = H * (W + 2)
  | 0, vs, _ => by simp [gridRows]
  | H + 1, vs, hlen => by
    have hW : W ≤ vs.length := by
      rw [hlen, Nat.mul_succ]
      omega
    have hdrop : (vs.drop W).length = W * H := by
      rw [List.length_drop, hlen, Nat.mul_succ]
      omega
    unfold gridRows
    rw [List.length_append, List.length_cons, List.length_append,
      List.length_take, gridRows_length W H (vs.drop W) hdrop]
    simp only [List.length_singleton]
    rw [Nat.succ_mul]
    omega

theorem borderedGrid_length (W H : Nat) (vs : List Bool)
    (hlen : vs.length = W * H) :
    (borderedGrid W H vs).length = (H + 2) * (W + 2) := by
  unfold borderedGrid
  simp only [List.length_append, List.length_replicate,
    gridRows_length W H vs hlen]
  ring

theorem count_true_gridRows (W : Nat) :
    ∀ (H : Nat) (vs : List Bool), vs.length = W * H →
      (gridRows W H vs).count true = vs.count true
  | 0, vs, hlen => by
    have : vs = [] := List.eq_nil_of_length_eq_zero (by simpa using hlen)
    subst this
    rfl
  | H + 1, vs, hlen => by
    have hdrop : (vs.drop W).length = W * H := by
      rw [List.length_drop, hlen, Nat.mul_succ]
      omega
    have hrow : (false :: (vs.take W ++ [false])).count true = (vs.take W).count true := by
      simp [List.count_cons, List.count_append]
    have hsplit : (vs.take W).count true + (vs.drop W).count true = vs.count true := by
      rw [← List.count_append, List.take_append_drop]
    unfold gridRows
    rw [List.count_append, hrow, count_true_gridRows W H (vs.drop W) hdrop]
    omega

theorem count_true_borderedGrid (W H : Nat) (vs : List Bool)
    (hlen : vs.length = W * H) :
    (borderedGrid W H vs).count true = vs.count true := by
  unfold borderedGrid
  rw [List.count_append, List.count_append, count_true_replicate_false,
    count_true_gridRows W H vs hlen]
  omega

theorem gridRows_getD_true (W : Nat) :
    ∀ (H : Nat) (vs : List Bool) (j : Nat), vs.length = W * H →
      (gridRows W H vs).getD j false = true →
      ∃ x y, 1 ≤ x ∧ x ≤ W ∧ y < H ∧ j = y * (W + 2) + x
  | 0, vs, j, _, h => by simp [gridRows] at h
  | H + 1, vs, j, hlen, h => by
    have hW : (vs.take W).length = W := by
      rw [List.length_take, hlen, Nat.mul_succ]
      omega
    have hdrop : (vs.drop W).length = W * H := by
      rw [List.length_drop, hlen, Nat.mul_succ]
      omega
    unfold gridRows at h
    rw [getD_append_split] at h
    have hrowlen : (false :: (vs.take W ++ [false])).length = W + 2 := by
      simp [hW]
    rw [hrowlen] at h
    by_cases hj : j < W + 2
    · rw [if_pos hj] at h
      cases j with
      | zero => simp at h
      | succ jj =>
        rw [List.getD_cons_succ, getD_append_split, hW] at h
        by_cases hjj : jj < W
        · refine ⟨jj + 1, 0, by omega, by omega, by omega, by omega⟩
        · rw [if_neg hjj] at h
          have : jj - W = 0 := by omega
          rw [this] at h
          simp at h
    · rw [if_neg hj] at h
      obtain ⟨x, y, hx1, hxW, hyH, hje⟩ :=
        gridRows_getD_true W H (vs.drop W) (j - (W + 2)) hdrop h
      refine ⟨x, y + 1, hx1, hxW, by omega, ?_⟩
      rw [Nat.succ_mul]
      omega

theorem borderedGrid_getD_true (W H : Nat) (vs : List Bool) (j : Nat)
    (hlen : vs.length = W * H)
    (h : (borderedGrid W H vs).getD j false = true) : InteriorIdx W H j := by
  unfold borderedGrid at h
  rw [getD_append_split, List.length_replicate] at h
  by_cases hj : j < W + 2
  · rw [if_pos hj, getD_replicate_false] at h
    simp at h
  · rw [if_neg hj, getD_append_split, gridRows_length W H vs hlen] at h
    by_cases hj2 : j - (W + 2) < H * (W + 2)
    · rw [if_pos hj2] at h
      obtain ⟨x, y, hx1, hxW, hyH, hje⟩ :=
        gridRows_getD_true W H vs (j - (W + 2)) hlen h
      refine ⟨x, y + 1, hx1, hxW, by omega, ?_⟩
      rw [Nat.succ_mul]
      omega
    · rw [if_neg hj2, getD_replicate_false] at h
      simp at h

theorem loadBoard_ok (W H : Nat) (cs : List Char) (b : List Bool) (n : Nat)
    (h : loadBoard W H cs = some (b, n)) :
    b.length = (H + 2) * (W + 2) ∧ n = b.count true ∧ GridOK W H b := by
  unfold loadBoard at h
  cases hp : parseCells (W * H) cs with
  | none => rw [hp] at h; simp at h
  | some vs =>
    rw [hp] at h
    simp only [Option.some.injEq, Prod.mk.injEq] at h
    obtain ⟨hb, hn⟩ := h
    have hlen := parseCells_length (W * H) cs vs hp
    subst hb
    subst hn
    refine ⟨borderedGrid_length W H vs hlen,
      (count_true_borderedGrid W H vs hlen).symm,
      borderedGrid_length W H vs hlen,
      fun j hj => borderedGrid_getD_true W H vs j hlen hj⟩

/-! ### Preservation of the border/interior invariant -/

theorem gridOK_setAt (W H : Nat) (b : List Bool) (p : Int)
    (h : GridOK W H b) : GridOK W H (setAt b p false) := by
  refine ⟨by rw [length_setAt]; exact h.1, fun j hj => ?_⟩
  apply h.2 j
  unfold setAt at hj
  split at hj
  · exact hj
  · exact getD_true_of_set_false b p.toNat j hj

theorem interior_of_cellAt (W H : Nat) (b : List Bool) (j : Int)
    (hok : GridOK W H b) (h : cellAt b j = true) :
    0 ≤ j ∧ InteriorIdx W H j.toNat := by
  obtain ⟨h0, hg⟩ := cellAt_elim b j h
  exact ⟨h0, hok.2 j.toNat hg⟩

theorem interior_delta_bounds (W H i : Nat) (h : InteriorIdx W H i) (k : Dir) :
    0 ≤ (i : Int) + delta (W + 2) k ∧
      ((i : Int) + delta (W + 2) k).toNat < (H + 2) * (W + 2) := by
  obtain ⟨x, y, hx1, hxW, hy1, hyH, hje⟩ := h
  have hyb : y * (W + 2) ≤ H * (W + 2) := Nat.mul_le_mul_right _ hyH
  have hy1b : 1 * (W + 2) ≤ y * (W + 2) := Nat.mul_le_mul_right _ hy1
  have htot : (H + 2) * (W + 2) = H * (W + 2) + 2 * (W + 2) := by ring
  have hy1' : (y + 1) * (W + 2) = y * (W + 2) + (W + 2) := by ring
  cases k <;> simp only [delta] <;> subst hje <;> omega

/-- Both halves of the positional invariant as one predicate: the grid is
well-formed (all border cells blocked) and the current position is interior. -/
def PosOK (W H : Nat) (s : St) : Prop :=
  GridOK W H s.b ∧ InteriorIdx W H s.i

theorem forcedStep_pos (W H : Nat) (s : St) (d : Int)
    (h : cellAt s.b ((s.i : Int) + d) = true) (hp : PosOK W H s) :
    PosOK W H (forcedStep s d) := by
  obtain ⟨_, hint⟩ := interior_of_cellAt W H s.b ((s.i : Int) + d) hp.1 h
  exact ⟨gridOK_setAt W H s.b _ hp.1, hint⟩

theorem runWhileF_pos (W H : Nat) (d : Int) :
    ∀ (f : Nat) (s : St), PosOK W H s → PosOK W H (runWhileF d f s) := by
  intro f
  induction f with
  | zero => intro s hp; exact hp
  | succ f ih =>
    intro s hp
    unfold runWhileF
    split
    · next h => exact ih (forcedStep s d) (forcedStep_pos W H s d h hp)
    · exact hp

theorem forcedRun_pos (W H : Nat) (s : St) (d : Int)
    (h : cellAt s.b ((s.i : Int) + d) = true) (hp : PosOK W H s) :
    PosOK W H (forcedRun s d) :=
  runWhileF_pos W H d _ (forcedStep s d) (forcedStep_pos W H s d h hp)

theorem runAutoF_pos (W H w : Nat) (cp : Bool) :
    ∀ (f : Nat) (s : St) (d : Int), cellAt s.b ((s.i : Int) + d) = true →
      PosOK W H s → PosOK W H (runAutoF w cp f s d) := by
  intro f
  induction f with
  | zero => intro s d _ hp; exact hp
  | succ f ih =>
    intro s d h hp
    unfold runAutoF
    cases cp with
    | false => exact forcedRun_pos W H s d h hp
    | true =>
      simp only [if_true]
      cases hx : autoExt w (forcedRun s d).b (forcedRun s d).i with
      | none => exact forcedRun_pos W H s d h hp
      | some k =>
        exact ih (forcedRun s d) (delta w k) (autoExt_open _ _ _ k hx)
          (forcedRun_pos W H s d h hp)

theorem runAuto_pos (W H w : Nat) (cp : Bool) (s : St) (d : Int)
    (h : cellAt s.b ((s.i : Int) + d) = true) (hp : PosOK W H s) :
    PosOK W H (runAuto w cp s d) :=
  runAutoF_pos W H w cp _ s d h hp

theorem replay_pos (W H w : Nat) (cp : Bool) :
    ∀ (cs : List Char) (s : St), PosOK W H s → PosOK W H ((replay w cp s cs).1) := by
  intro cs
  induction cs with
  | nil => intro s hp; exact hp
  | cons c cs ih =>
    intro s hp
    cases hk : dirOfChar c with
    | some k =>
      rw [replay_cons_dir w cp s c cs k hk]
      by_cases h : cellAt s.b ((s.i : Int) + delta w k) = true
      · simp only [h, if_true]
        exact ih (runAuto w cp s (delta w k)) (runAuto_pos W H w cp s (delta w k) h hp)
      · simp only [Bool.not_eq_true] at h
        simp only [h]
        exact hp
    | none =>
      by_cases he : isEol c = true
      · rw [replay_cons_eol w cp s c cs hk he]
        exact hp
      · rw [replay_cons_bad w cp s c cs hk (by simpa using he)]
        exact hp

/-! ### Facts about the initial state -/

theorem initState_inv (W : Nat) (b : List Bool) (n sx sy : Nat)
    (hn : n = b.count true)
    (hstart : cellAt b ((startIndex W sx sy : Nat) : Int) = true) :
    InvCount (initState W b n sx sy) := by
  have := count_setAt_false_of_true b ((startIndex W sx sy : Nat) : Int) hstart
  show n - 1 = (setAt b ((startIndex W sx sy : Nat) : Int) false).count true
  omega

theorem initState_pos (W H : Nat) (b : List Bool) (n sx sy : Nat)
    (hok : GridOK W H b) (hx : sx < W) (hy : sy < H) :
    PosOK W H (initState W b n sx sy) := by
  refine ⟨gridOK_setAt W H b ((startIndex W sx sy : Nat) : Int) hok,
    sx + 1, sy + 1, by omega, by omega, by omega, by omega, rfl⟩

/-! ### The spec-side auto-extension rule, for comparison with `autoExt` -/

/-- The spec phrasing: the first open neighbor of the current cell in the
fixed priority order Left, Up, Right, Down. -/
def specFirstOpen (w : Nat) (b : List Bool) (i : Nat) : Option Dir :=
  if cellAt b ((i : Int) + delta w Dir.left) then some Dir.left
  else if cellAt b ((i : Int) + delta w Dir.up) then some Dir.up
  else if cellAt b ((i : Int) + delta w Dir.right) then some Dir.right
  else if cellAt b ((i : Int) + delta w Dir.down) then some Dir.down
  else none

/-- The spec phrasing of when a token must be consumed at a decision
boundary in compressed mode: no neighbor is open, or the first open neighbor
in L, U, R, D order is Left (resp. Up) while its directly opposite neighbor
Right (resp. Down) is also open. -/
def specNeedsToken (w : Nat) (b : List Bool) (i : Nat) : Prop :=
  specFirstOpen w b i = none
    ∨ (specFirstOpen w b i = some Dir.left ∧
        cellAt b ((i : Int) + delta w Dir.right) = true)
    ∨ (specFirstOpen w b i = some Dir.up ∧
        cellAt b ((i : Int) + delta w Dir.down) = true)

/-! ### Rule-based compression of an explicit path

`compress` derives, from an explicit path, the compressed (`qpath`) encoding
described by the spec's rule: replay the explicit path; at each decision
boundary where the auto-extension scan deduces a direction, the matching
explicit token is deleted; at boundaries that genuinely require a decision
the token is kept.  The first token is always kept (the verifier always
reads one token before the first move).  A path whose next token contradicts
a deduced direction has no rule-derived compressed form (`none`): its tokens
are not "kept only at true decision points".  A token that fails (blocked
move, invalid character) or ends the path (newline) is kept and ends the
derivation, as the replay never looks further. -/

/-- Rule-based compression after the first forced run, boundary by
boundary. -/
def compressGo (w : Nat) : St → List Char → Option (List Char)
  | _, [] => some []
  | s, c :: rest =>
    match autoExt w s.b s.i with
    | some k =>
      if c = dirChar k then compressGo w (forcedRun s (delta w k)) rest
      else none
    | none =>
      match dirOfChar c with
      | some k =>
        if cellAt s.b ((s.i : Int) + delta w k) then
          match compressGo w (forcedRun s (delta w k)) rest with
          | some q => some (c :: q)
          | none => none
        else some [c]
      | none => some [c]

/-- Rule-based compression of a whole explicit path (the first token is
always kept, as reading precedes any auto-extension). -/
def compress (w : Nat) : St → List Char → Option (List Char)
  | _, [] => some []
  | s, c :: rest =>
    match dirOfChar c with
    | some k =>
      if cellAt s.b ((s.i : Int) + delta w k) then
        match compressGo w (forcedRun s (delta w k)) rest with
        | some q => some (c :: q)
        | none => none
      else some [c]
    | none => some [c]

theorem dirOfChar_dirChar (k : Dir) : dirOfChar (dirChar k) = some k := by
  cases k <;> rfl

theorem endOutcome_not_blocked (s : St) : (endOutcome s).2 ≠ Outcome.blocked := by
  unfold endOutcome
  split <;> simp

theorem endOutcome_not_invalid (s : St) : (endOutcome s).2 ≠ Outcome.invalidChar := by
  unfold endOutcome
  split <;> simp

theorem compressGo_cons_auto (w : Nat) (s : St) (c : Char) (rest : List Char)
    (k : Dir) (hx : autoExt w s.b s.i = some k) :
    compressGo w s (c :: rest) =
      if c = dirChar k then compressGo w (forcedRun s (delta w k)) rest
      else none := by
  conv_lhs => unfold compressGo
  rw [hx]

theorem compressGo_cons_dir (w : Nat) (s : St) (c : Char) (rest : List Char)
    (k : Dir) (hx : autoExt w s.b s.i = none) (hk : dirOfChar c = some k) :
    compressGo w s (c :: rest) =
      if cellAt s.b ((s.i : Int) + delta w k) then
        match compressGo w (forcedRun s (delta w k)) rest with
        | some q => some (c :: q)
        | none => none
      else some [c] := by
  conv_lhs => unfold compressGo
  rw [hx, hk]

theorem compressGo_cons_other (w : Nat) (s : St) (c : Char) (rest : List Char)
    (hx : autoExt w s.b s.i = none) (hk : dirOfChar c = none) :
    compressGo w s (c :: rest) = some [c] := by
  conv_lhs => unfold compressGo
  rw [hx, hk]

theorem compress_cons_dir (w : Nat) (s : St) (c : Char) (rest : List Char)
    (k : Dir) (hk : dirOfChar c = some k) :
    compress w s (c :: rest) =
      if cellAt s.b ((s.i : Int) + delta w k) then
        match compressGo w (forcedRun s (delta w k)) rest with
        | some q => some (c :: q)
        | none => none
      else some [c] := by
  have h0 : compress w s (c :: rest) =
      match dirOfChar c with
      | some k =>
        if cellAt s.b ((s.i : Int) + delta w k) then
          match compressGo w (forcedRun s (delta w k)) rest with
          | some q => some (c :: q)
          | none => none
        else some [c]
      | none => some [c] := rfl
  rw [h0, hk]

theorem compress_cons_other (w : Nat) (s : St) (c : Char) (rest : List Char)
    (hk : dirOfChar c = none) :
    compress w s (c :: rest) = some [c] := by
  have h0 : compress w s (c :: rest) =
      match dirOfChar c with
      | some k =>
        if cellAt s.b ((s.i : Int) + delta w k) then
          match compressGo w (forcedRun s (delta w k)) rest with
          | some q => some (c :: q)
          | none => none
        else some [c]
      | none => some [c] := rfl
  rw [h0, hk]

theorem compressGo_outcome (w : Nat) :
    ∀ (cs : List Char) (s : St) (q : List Char),
      compressGo w s cs = some q →
      ((replay w false s cs).2 = Outcome.blocked ∨
        (replay w false s cs).2 = Outcome.invalidChar ∨
        autoExt w ((replay w false s cs).1).b ((replay w false s cs).1).i = none) →
      (replay w false s cs).2 = (replay w true (chain w s) q).2 := by
  intro cs
  induction cs with
  | nil =>
    intro s q hq hend
    simp only [compressGo, Option.some.injEq] at hq
    subst hq
    have hnone : autoExt w s.b s.i = none := by
      rcases hend with hb | hi | hn
      · exact absurd hb (endOutcome_not_blocked s)
      · exact absurd hi (endOutcome_not_invalid s)
      · exact hn
    have hchain : chain w s = s := by rw [chain_eq, hnone]
    rw [hchain]
    rfl
  | cons c rest ih =>
    intro s q hq hend
    cases hx : autoExt w s.b s.i with
    | some k =>
      rw [compressGo_cons_auto w s c rest k hx] at hq
      by_cases hc : c = dirChar k
      · rw [if_pos hc] at hq
        have hkc : dirOfChar c = some k := by rw [hc]; exact dirOfChar_dirChar k
        have hopen := autoExt_open w s.b s.i k hx
        have heq : replay w false s (c :: rest) =
            replay w false (forcedRun s (delta w k)) rest := by
          rw [replay_cons_dir w false s c rest k hkc, if_pos hopen, runAuto_false]
        have hchain : chain w s = chain w (forcedRun s (delta w k)) := by
          rw [chain_eq, hx]
        rw [heq] at hend ⊢
        rw [hchain]
        exact ih (forcedRun s (delta w k)) q hq hend
      · rw [if_neg hc] at hq
        simp at hq
    | none =>
      have hchain : chain w s = s := by rw [chain_eq, hx]
      cases hk : dirOfChar c with
      | some k =>
        rw [compressGo_cons_dir w s c rest k hx hk] at hq
        by_cases hopen : cellAt s.b ((s.i : Int) + delta w k) = true
        · rw [if_pos hopen] at hq
          cases hq' : compressGo w (forcedRun s (delta w k)) rest with
          | none => rw [hq'] at hq; simp at hq
          | some q' =>
            rw [hq'] at hq
            simp only [Option.some.injEq] at hq
            subst hq
            have heq : replay w false s (c :: rest) =
                replay w false (forcedRun s (delta w k)) rest := by
              rw [replay_cons_dir w false s c rest k hk, if_pos hopen, runAuto_false]
            have hq2 : replay w true (chain w s) (c :: q') =
                replay w true (chain w (forcedRun s (delta w k))) q' := by
              rw [hchain, replay_cons_dir w true s c q' k hk, if_pos hopen,
                runAuto_true_eq_chain w (s.b.count true) s (delta w k) (le_refl _) hopen]
            rw [heq] at hend ⊢
            rw [hq2]
            exact ih (forcedRun s (delta w k)) q' hq' hend
        · rw [if_neg hopen] at hq
          simp only [Option.some.injEq] at hq
          subst hq
          have hopen' : cellAt s.b ((s.i : Int) + delta w k) = false := by
            cases hcb : cellAt s.b ((s.i : Int) + delta w k)
            · rfl
            · exact absurd hcb hopen
          rw [replay_cons_dir w false s c rest k hk, hopen', hchain,
            replay_cons_dir w true s c [] k hk, hopen']
          simp
      | none =>
        rw [compressGo_cons_other w s c rest hx hk] at hq
        simp only [Option.some.injEq] at hq
        subst hq
        by_cases he : isEol c = true
        · rw [replay_cons_eol w false s c rest hk he, hchain,
            replay_cons_eol w true s c [] hk he]
        · have he' : isEol c = false := by simpa using he
          rw [replay_cons_bad w false s c rest hk he', hchain,
            replay_cons_bad w true s c [] hk he']

theorem compress_outcome (w : Nat) (s : St) (path q : List Char)
    (hq : compress w s path = some q)
    (hend : (replay w false s path).2 = Outcome.blocked ∨
      (replay w false s path).2 = Outcome.invalidChar ∨
      autoExt w ((replay w false s path).1).b ((replay w false s path).1).i = none) :
    (replay w false s path).2 = (replay w true s q).2 := by
  cases path with
  | nil =>
    simp only [compress, Option.some.injEq] at hq
    subst hq
    rfl
  | cons c rest =>
    cases hk : dirOfChar c with
    | some k =>
      rw [compress_cons_dir w s c rest k hk] at hq
      by_cases hopen : cellAt s.b ((s.i : Int) + delta w k) = true
      · rw [if_pos hopen] at hq
        cases hq' : compressGo w (forcedRun s (delta w k)) rest with
        | none => rw [hq'] at hq; simp at hq
        | some q' =>
          rw [hq'] at hq
          simp only [Option.some.injEq] at hq
          subst hq
          have heq : replay w false s (c :: rest) =
              replay w false (forcedRun s (delta w k)) rest := by
            rw [replay_cons_dir w false s c rest k hk, if_pos hopen, runAuto_false]
          have hq2 : replay w true s (c :: q') =
              replay w true (chain w (forcedRun s (delta w k))) q' := by
            rw [replay_cons_dir w true s c q' k hk, if_pos hopen,
              runAuto_true_eq_chain w (s.b.count true) s (delta w k) (le_refl _) hopen]
          rw [heq] at hend ⊢
          rw [hq2]
          exact compressGo_outcome w rest (forcedRun s (delta w k)) q' hq' hend
      · rw [if_neg hopen] at hq
        simp only [Option.some.injEq] at hq
        subst hq
        have hopen' : cellAt s.b ((s.i : Int) + delta w k) = false := by
          cases hcb : cellAt s.b ((s.i : Int) + delta w k)
          · rfl
          · exact absurd hcb hopen
        rw [replay_cons_dir w false s c rest k hk, hopen',
          replay_cons_dir w true s c [] k hk, hopen']
        simp
    | none =>
      rw [compress_cons_other w s c rest hk] at hq
      simp only [Option.some.injEq] at hq
      subst hq
      by_cases he : isEol c = true
      · rw [replay_cons_eol w false s c rest hk he,
          replay_cons_eol w true s c [] hk he]
      · have he' : isEol c = false := by simpa using he
        rw [replay_cons_bad w false s c rest hk he',
          replay_cons_bad w true s c [] hk he']

/-! ### Concrete boards for the scenario claims -/

/-- The 3×3 board `x=3&y=3&board=X.......X` of the spec's scenarios
(7 open cells), with its open count. -/
def exBoard3 : List Bool × Nat :=
  (loadBoard 3 3 ("X.......X".toList)).getD ([], 0)

/-- The initial replay state on `exBoard3` at start coordinate (1,0). -/
def exInit3 : St := initState 3 exBoard3.1 exBoard3.2 1 0

/-- A fully open 2×2 board, with its open count. -/
def exBoard2 : List Bool × Nat :=
  (loadBoard 2 2 ("....".toList)).getD ([], 0)

/-- The initial replay state on `exBoard2` at start coordinate (0,0). -/
def exInit2 : St := initState 2 exBoard2.1 exBoard2.2 0 0

/-! ### The claims -/

/-- Claim C1: for every board and every solution whose replay under the
movement rule visits every open cell exactly once (formally: the replay
consumes the stream without a blocked-direction or invalid-character error
and leaves no open cell in the final grid), the verifier terminates with
Success and a remaining open-cell count of zero. -/
theorem claim_C1 (W H : Nat) (cs : List Char) (b : List Bool) (n sx sy : Nat)
    (cp : Bool) (path : List Char) (s' : St) (o : Outcome)
    (hload : loadBoard W H cs = some (b, n))
    (hrun : checkSolution W H b n sx sy cp path = CheckResult.run s' o)
    (hnb : o ≠ Outcome.blocked) (hni : o ≠ Outcome.invalidChar)
    (hcover : s'.b.count true = 0) :
    o = Outcome.success ∧ s'.n = 0 := by
  unfold checkSolution at hrun
  by_cases h1 : sy ≥ H ∨ sx ≥ W
  · rw [if_pos h1] at hrun
    exact absurd hrun (by simp)
  rw [if_neg h1] at hrun
  by_cases h2 : cellAt b ((startIndex W sx sy : Nat) : Int) = false
  · rw [if_pos h2] at hrun
    exact absurd hrun (by simp)
  rw [if_neg h2] at hrun
  have hstart : cellAt b ((startIndex W sx sy : Nat) : Int) = true := by
    cases hcb : cellAt b ((startIndex W sx sy : Nat) : Int)
    · exact absurd hcb h2
    · rfl
  injection hrun with hs ho
  subst hs
  subst ho
  have hn := (loadBoard_ok W H cs b n hload).2.1
  have hinv := replay_inv (W + 2) cp path (initState W b n sx sy)
    (initState_inv W b n sx sy hn hstart)
  unfold InvCount at hinv
  have hz : (replay (W + 2) cp (initState W b n sx sy) path).1.n = 0 := by
    omega
  have hsh := replay_end_shape (W + 2) cp path (initState W b n sx sy) hnb hni
  rw [if_pos hz] at hsh
  exact ⟨hsh, hz⟩

/-- Witness for C1 on the spec's own scenario: board `X.......X`, start
(1,0), path `RDLDR`. -/
theorem claim_C1_witness :
    (replay 5 false exInit3 ("RDLDR".toList)).2 = Outcome.success ∧
      (replay 5 false exInit3 ("RDLDR".toList)).1.n = 0 :=
  claim_C1 3 3 ("X.......X".toList) exBoard3.1 exBoard3.2 1 0 false
    ("RDLDR".toList) (replay 5 false exInit3 ("RDLDR".toList)).1
    (replay 5 false exInit3 ("RDLDR".toList)).2
    (by rfl) (by rfl) (by decide) (by decide) (by rfl)

/-- Claim C3: in compressed mode the verifier consumes the next token
exactly when no neighbor is open, or the first open neighbor in the fixed
priority order Left, Up, Right, Down is Left (resp. Up) with Right (resp.
Down) also open; in every other case it auto-commits to the first open
neighbor's direction without consuming a token and repeats the forced-run
phase in that direction.  Formally: `autoExt` returns `none` exactly under
the spec's needs-token condition, returns a direction exactly when it is the
first open one and the condition fails, and the compressed inner loop
follows `autoExt`'s verdict. -/
theorem claim_C3 :
    (∀ (w : Nat) (b : List Bool) (i : Nat),
      (autoExt w b i = none ↔ specNeedsToken w b i) ∧
        ∀ k : Dir, autoExt w b i = some k ↔
          (specFirstOpen w b i = some k ∧ ¬ specNeedsToken w b i)) ∧
    (∀ (w : Nat) (s : St) (d : Int), cellAt s.b ((s.i : Int) + d) = true →
      (autoExt w (forcedRun s d).b (forcedRun s d).i = none →
        runAuto w true s d = forcedRun s d) ∧
      ∀ k : Dir, autoExt w (forcedRun s d).b (forcedRun s d).i = some k →
        runAuto w true s d = runAuto w true (forcedRun s d) (delta w k)) := by
  constructor
  · intro w b i
    constructor
    · cases c0 : cellAt b ((i : Int) + delta w Dir.left) <;>
        cases c1 : cellAt b ((i : Int) + delta w Dir.up) <;>
        cases c2 : cellAt b ((i : Int) + delta w Dir.right) <;>
        cases c3 : cellAt b ((i : Int) + delta w Dir.down) <;>
        simp [autoExt, specFirstOpen, specNeedsToken, c0, c1, c2, c3]
    · intro k
      cases c0 : cellAt b ((i : Int) + delta w Dir.left) <;>
        cases c1 : cellAt b ((i : Int) + delta w Dir.up) <;>
        cases c2 : cellAt b ((i : Int) + delta w Dir.right) <;>
        cases c3 : cellAt b ((i : Int) + delta w Dir.down) <;>
        cases k <;>
        simp [autoExt, specFirstOpen, specNeedsToken, c0, c1, c2, c3]
  · intro w s d h
    constructor
    · intro hnone
      rw [runAuto_true_eq w s d h, hnone]
    · intro k hk
      rw [runAuto_true_eq w s d h, hk]

/-- Witness for C3 (the loop part has a hypothesis): on the 2×2 board after
the first forced run right, the scan deduces Down and the inner loop
continues without a token. -/
theorem claim_C3_witness :
    runAuto 4 true exInit2 1 = runAuto 4 true (forcedRun exInit2 1) (delta 4 Dir.down) :=
  (claim_C3.2 4 exInit2 1 (by rfl)).2 Dir.down (by rfl)

/-- Claim C4: the remaining open-cell counter always equals the number of
open cells of the mutable grid (stated for the state after every token
prefix of the replay), and the replay succeeds iff it consumed the stream
without a blocked/invalid error and the counter reached zero there. -/
theorem claim_C4 (W H : Nat) (cs : List Char) (b : List Bool) (n sx sy : Nat)
    (cp : Bool) (path : List Char)
    (hload : loadBoard W H cs = some (b, n))
    (hstart : cellAt b ((startIndex W sx sy : Nat) : Int) = true) :
    (∀ k : Nat, (prefixState W b n sx sy cp path k).n =
        (prefixState W b n sx sy cp path k).b.count true) ∧
    ((replay (W + 2) cp (initState W b n sx sy) path).2 = Outcome.success ↔
      ((replay (W + 2) cp (initState W b n sx sy) path).2 ≠ Outcome.blocked ∧
        (replay (W + 2) cp (initState W b n sx sy) path).2 ≠ Outcome.invalidChar ∧
        (replay (W + 2) cp (initState W b n sx sy) path).1.n = 0)) := by
  have hn := (loadBoard_ok W H cs b n hload).2.1
  have hinv0 := initState_inv W b n sx sy hn hstart
  constructor
  · intro k
    exact replay_inv (W + 2) cp (path.take k) (initState W b n sx sy) hinv0
  · constructor
    · intro hs
      have hnb : (replay (W + 2) cp (initState W b n sx sy) path).2 ≠ Outcome.blocked := by
        rw [hs]
        simp
      have hni : (replay (W + 2) cp (initState W b n sx sy) path).2 ≠ Outcome.invalidChar := by
        rw [hs]
        simp
      refine ⟨hnb, hni, ?_⟩
      have hsh := replay_end_shape (W + 2) cp path (initState W b n sx sy) hnb hni
      rw [hs] at hsh
      by_cases hz : (replay (W + 2) cp (initState W b n sx sy) path).1.n = 0
      · exact hz
      · rw [if_neg hz] at hsh
        exact absurd hsh (by simp)
    · rintro ⟨hnb, hni, hz⟩
      have hsh := replay_end_shape (W + 2) cp path (initState W b n sx sy) hnb hni
      rw [if_pos hz] at hsh
      exact hsh

/-- Witness for C4 on the `RDLDR` scenario (invariant after a 2-token
prefix, and the success iff). -/
theorem claim_C4_witness :
    (prefixState 3 exBoard3.1 exBoard3.2 1 0 false ("RDLDR".toList) 2).n =
      (prefixState 3 exBoard3.1 exBoard3.2 1 0 false ("RDLDR".toList) 2).b.count true ∧
    ((replay 5 false exInit3 ("RDLDR".toList)).2 = Outcome.success ↔
      ((replay 5 false exInit3 ("RDLDR".toList)).2 ≠ Outcome.blocked ∧
        (replay 5 false exInit3 ("RDLDR".toList)).2 ≠ Outcome.invalidChar ∧
        (replay 5 false exInit3 ("RDLDR".toList)).1.n = 0)) :=
  ⟨(claim_C4 3 3 ("X.......X".toList) exBoard3.1 exBoard3.2 1 0 false
      ("RDLDR".toList) (by rfl) (by rfl)).1 2,
    (claim_C4 3 3 ("X.......X".toList) exBoard3.1 exBoard3.2 1 0 false
      ("RDLDR".toList) (by rfl) (by rfl)).2⟩

/-- Claim C5, corrected: on board `x=3&y=3&board=X.......X` (which has 7
open cells, not 8) with start (1,0), the path `R` yields
IncompleteCoverageError with remaining = 5 (not 6): the start consumes
(1,0), the forced run right consumes (2,0), and 7 − 2 = 5 cells remain. -/
theorem claim_C5 :
    resultOutcome (checkFiles 3 3 ("X.......X".toList) 1 0 false ("R".toList)) =
        some (Outcome.incomplete 5) ∧
      resultRemaining (checkFiles 3 3 ("X.......X".toList) 1 0 false ("R".toList)) =
        some 5 ∧
      (loadBoard 3 3 ("X.......X".toList)).map (fun p => p.2) = some 7 :=
  ⟨rfl, rfl, rfl⟩

/-- Counterexample to claim C5 as stated: the remaining count is not 6. -/
theorem claim_C5_counterexample :
    resultOutcome (checkFiles 3 3 ("X.......X".toList) 1 0 false ("R".toList)) ≠
      some (Outcome.incomplete 6) := by
  decide

/-- Claim C6: board `x=3&y=3&board=X.......X`, start (1,0), explicit path
`RDLDR` verifies with Success and 0 cells remaining. -/
theorem claim_C6 :
    resultOutcome (checkFiles 3 3 ("X.......X".toList) 1 0 false ("RDLDR".toList)) =
        some Outcome.success ∧
      resultRemaining (checkFiles 3 3 ("X.......X".toList) 1 0 false ("RDLDR".toList)) =
        some 0 :=
  ⟨rfl, rfl⟩

/-- A blocked direction token at stream position `k` stops the replay there
with the blocked-direction error, from whatever state the first `k` tokens
produced. -/
theorem replay_blocked_at (w : Nat) (cp : Bool) (s0 : St) (path : List Char)
    (k : Nat) (c : Char) (dk : Dir)
    (hall : ∀ c' ∈ path.take k, (dirOfChar c').isSome = true)
    (hnb : (replay w cp s0 (path.take k)).2 ≠ Outcome.blocked)
    (hc : path.get? k = some c) (hdk : dirOfChar c = some dk)
    (hblk : cellAt ((replay w cp s0 (path.take k)).1).b
      ((((replay w cp s0 (path.take k)).1).i : Int) + delta w dk) = false) :
    replay w cp s0 path = ((replay w cp s0 (path.take k)).1, Outcome.blocked) := by
  have hsplit : path = path.take k ++ (c :: path.drop (k + 1)) := by
    conv_lhs => rw [← List.take_append_drop k path]
    rw [drop_eq_cons_of_get? path k c hc]
  conv_lhs => rw [hsplit]
  rw [replay_append w cp (path.take k) (c :: path.drop (k + 1)) s0 hall hnb]
  rw [replay_cons_dir w cp _ c _ dk hdk]
  rw [hblk]
  simp

/-- Claim C7: whenever a direction token is read whose corresponding
neighbor of the current cell is a wall, the border, or an already-visited
cell, the verifier terminates at that exact point (the state reached after
the first `k` tokens) with BlockedDirectionError; the token is never
silently ignored. -/
theorem claim_C7 (W H : Nat) (cs : List Char) (b : List Bool) (n sx sy : Nat)
    (cp : Bool) (path : List Char) (k : Nat) (c : Char) (dk : Dir)
    (_hload : loadBoard W H cs = some (b, n))
    (hall : ∀ c' ∈ path.take k, (dirOfChar c').isSome = true)
    (hnb : (replay (W + 2) cp (initState W b n sx sy) (path.take k)).2 ≠ Outcome.blocked)
    (hc : path.get? k = some c) (hdk : dirOfChar c = some dk)
    (hblk : cellAt (prefixState W b n sx sy cp path k).b
      (((prefixState W b n sx sy cp path k).i : Int) + delta (W + 2) dk) = false) :
    replay (W + 2) cp (initState W b n sx sy) path =
      (prefixState W b n sx sy cp path k, Outcome.blocked) := by
  unfold prefixState at hblk ⊢
  exact replay_blocked_at (W + 2) cp (initState W b n sx sy) path k c dk
    hall hnb hc hdk hblk

/-- Witness for C7: on the `X.......X` board from start (1,0), the very
first token `L` points at the wall (0,0) and is rejected on the spot. -/
theorem claim_C7_witness :
    replay 5 false exInit3 ("L".toList) =
      (prefixState 3 exBoard3.1 exBoard3.2 1 0 false ("L".toList) 0, Outcome.blocked) :=
  claim_C7 3 3 ("X.......X".toList) exBoard3.1 exBoard3.2 1 0 false
    ("L".toList) 0 'L' Dir.left (by rfl) (by decide) (by decide) (by rfl)
    (by rfl) (by rfl)

/-- Claim C8: if the token stream is exhausted while N > 0 open cells remain
unvisited (N is the number of open cells in the final grid), the verifier
terminates with IncompleteCoverageError carrying exactly N. -/
theorem claim_C8 (W H : Nat) (cs : List Char) (b : List Bool) (n sx sy : Nat)
    (cp : Bool) (path : List Char) (N : Nat)
    (hload : loadBoard W H cs = some (b, n))
    (hstart : cellAt b ((startIndex W sx sy : Nat) : Int) = true)
    (hnb : (replay (W + 2) cp (initState W b n sx sy) path).2 ≠ Outcome.blocked)
    (hni : (replay (W + 2) cp (initState W b n sx sy) path).2 ≠ Outcome.invalidChar)
    (hN : (replay (W + 2) cp (initState W b n sx sy) path).1.b.count true = N)
    (hpos : 0 < N) :
    (replay (W + 2) cp (initState W b n sx sy) path).2 = Outcome.incomplete N := by
  have hn := (loadBoard_ok W H cs b n hload).2.1
  have hinv := replay_inv (W + 2) cp path (initState W b n sx sy)
    (initState_inv W b n sx sy hn hstart)
  unfold InvCount at hinv
  have hsh := replay_end_shape (W + 2) cp path (initState W b n sx sy) hnb hni
  rw [if_neg (by omega)] at hsh
  rw [hsh, hinv, hN]

/-- Witness for C8: the `R`-only scenario ends with 5 open cells and reports
exactly 5. -/
theorem claim_C8_witness :
    (replay 5 false exInit3 ("R".toList)).2 = Outcome.incomplete 5 :=
  claim_C8 3 3 ("X.......X".toList) exBoard3.1 exBoard3.2 1 0 false
    ("R".toList) 5 (by rfl) (by rfl) (by decide) (by decide) (by rfl) (by decide)

/-- Claim C9: if the replay brings the remaining counter to zero (full
coverage) and a valid direction token remains, the verifier rejects it with
BlockedDirectionError — once every open cell is visited all four neighbors
are blocked — so leftover direction tokens are never accepted as Success. -/
theorem claim_C9 (W H : Nat) (cs : List Char) (b : List Bool) (n sx sy : Nat)
    (cp : Bool) (path : List Char) (k : Nat) (c : Char) (dk : Dir)
    (hload : loadBoard W H cs = some (b, n))
    (hstart : cellAt b ((startIndex W sx sy : Nat) : Int) = true)
    (hall : ∀ c' ∈ path.take k, (dirOfChar c').isSome = true)
    (hnb : (replay (W + 2) cp (initState W b n sx sy) (path.take k)).2 ≠ Outcome.blocked)
    (hzero : (prefixState W b n sx sy cp path k).n = 0)
    (hc : path.get? k = some c) (hdk : dirOfChar c = some dk) :
    replay (W + 2) cp (initState W b n sx sy) path =
        (prefixState W b n sx sy cp path k, Outcome.blocked) ∧
      (replay (W + 2) cp (initState W b n sx sy) path).2 ≠ Outcome.success := by
  have hn := (loadBoard_ok W H cs b n hload).2.1
  have hinv := replay_inv (W + 2) cp (path.take k) (initState W b n sx sy)
    (initState_inv W b n sx sy hn hstart)
  unfold InvCount at hinv
  unfold prefixState at hzero
  have hblk : cellAt ((replay (W + 2) cp (initState W b n sx sy) (path.take k)).1).b
      ((((replay (W + 2) cp (initState W b n sx sy) (path.take k)).1).i : Int) +
        delta (W + 2) dk) = false :=
    cellAt_false_of_count_zero _ (by omega) _
  have hmain : replay (W + 2) cp (initState W b n sx sy) path =
      (prefixState W b n sx sy cp path k, Outcome.blocked) :=
    replay_blocked_at (W + 2) cp (initState W b n sx sy) path k c dk
      hall hnb hc hdk hblk
  refine ⟨hmain, ?_⟩
  rw [hmain]
  simp

/-- Witness for C9: after `RDLDR` covers the whole board, an extra `R` is
rejected with a blocked direction, not accepted. -/
theorem claim_C9_witness :
    replay 5 false exInit3 ("RDLDRR".toList) =
        (prefixState 3 exBoard3.1 exBoard3.2 1 0 false ("RDLDRR".toList) 5, Outcome.blocked) ∧
      (replay 5 false exInit3 ("RDLDRR".toList)).2 ≠ Outcome.success :=
  claim_C9 3 3 ("X.......X".toList) exBoard3.1 exBoard3.2 1 0 false
    ("RDLDRR".toList) 5 'R' Dir.right (by rfl) (by rfl) (by decide) (by decide)
    (by rfl) (by rfl) (by rfl)

/-- Claim C10: at every token boundary of the replay the grid keeps its
allocated `(H+2)*(W+2)` size with every sentinel-border (non-interior) cell
blocked, the current position is strictly inside the playable area, and all
four neighbor lookups at offsets ±1 and ±(W+2) land inside the allocated
buffer; moreover every forced-run micro-step into an open cell preserves the
well-formed-grid and interior-position invariants. -/
theorem claim_C10 (W H : Nat) (cs : List Char) (b : List Bool) (n sx sy : Nat)
    (cp : Bool) (path : List Char)
    (hload : loadBoard W H cs = some (b, n)) (hx : sx < W) (hy : sy < H) :
    (∀ k : Nat,
      (prefixState W b n sx sy cp path k).b.length = (H + 2) * (W + 2) ∧
      (∀ j : Nat, j < (prefixState W b n sx sy cp path k).b.length →
        ¬ InteriorIdx W H j →
        (prefixState W b n sx sy cp path k).b.getD j false = false) ∧
      InteriorIdx W H (prefixState W b n sx sy cp path k).i ∧
      (∀ dk : Dir,
        0 ≤ ((prefixState W b n sx sy cp path k).i : Int) + delta (W + 2) dk ∧
        (((prefixState W b n sx sy cp path k).i : Int) + delta (W + 2) dk).toNat <
          (prefixState W b n sx sy cp path k).b.length)) ∧
    (∀ (s : St) (d : Int), GridOK W H s.b → InteriorIdx W H s.i →
      cellAt s.b ((s.i : Int) + d) = true →
      GridOK W H (forcedStep s d).b ∧ InteriorIdx W H (forcedStep s d).i) := by
  constructor
  · intro k
    have hok := (loadBoard_ok W H cs b n hload).2.2
    have hp : PosOK W H (prefixState W b n sx sy cp path k) :=
      replay_pos W H (W + 2) cp (path.take k) (initState W b n sx sy)
        (initState_pos W H b n sx sy hok hx hy)
    obtain ⟨⟨hlen, hopen⟩, hint⟩ := hp
    refine ⟨hlen, ?_, hint, ?_⟩
    · intro j _ hnint
      cases hgd : (prefixState W b n sx sy cp path k).b.getD j false
      · rfl
      · exact absurd (hopen j hgd) hnint
    · intro dk
      have hb := interior_delta_bounds W H (prefixState W b n sx sy cp path k).i hint dk
      refine ⟨hb.1, ?_⟩
      rw [hlen]
      exact hb.2
  · intro s d hok hint h
    exact ⟨gridOK_setAt W H s.b ((s.i : Int) + d) hok,
      (interior_of_cellAt W H s.b ((s.i : Int) + d) hok h).2⟩

/-- Witness for C10 on the `RDLDR` scenario after 3 tokens: size 25 grid,
a blocked border corner, interior position, in-buffer up-neighbor. -/
theorem claim_C10_witness :
    (prefixState 3 exBoard3.1 exBoard3.2 1 0 false ("RDLDR".toList) 3).b.length = 25 ∧
    (prefixState 3 exBoard3.1 exBoard3.2 1 0 false ("RDLDR".toList) 3).b.getD 0 false = false ∧
    InteriorIdx 3 3 (prefixState 3 exBoard3.1 exBoard3.2 1 0 false ("RDLDR".toList) 3).i ∧
    0 ≤ ((prefixState 3 exBoard3.1 exBoard3.2 1 0 false ("RDLDR".toList) 3).i : Int) +
      delta 5 Dir.up ∧
    (((prefixState 3 exBoard3.1 exBoard3.2 1 0 false ("RDLDR".toList) 3).i : Int) +
      delta 5 Dir.up).toNat < 25 := by
  have base := claim_C10 3 3 ("X.......X".toList) exBoard3.1 exBoard3.2 1 0 false
    ("RDLDR".toList) (by rfl) (by decide) (by decide)
  obtain ⟨hlen, hbord, hint, hdelta⟩ := base.1 3
  refine ⟨hlen, ?_, hint, (hdelta Dir.up).1, ?_⟩
  · refine hbord 0 (by rw [hlen]; omega) ?_
    rintro ⟨x, y, hx1, hxW, hy1, hyH, hj⟩
    omega
  · have h2 := (hdelta Dir.up).2
    rw [hlen] at h2
    exact h2

/-- Claim C2, amended: for every board and start, an explicit path and the
compressed encoding derived from it by the deletion rule yield the same
outcome, provided the explicit replay does not end at a boundary where the
auto-extension rule deduces a further move (it either fails with a
blocked/invalid error, or ends where a token would be required — in
particular whenever it covers every open cell). -/
theorem claim_C2 (W H : Nat) (cs : List Char) (b : List Bool) (n sx sy : Nat)
    (path q : List Char)
    (_hload : loadBoard W H cs = some (b, n)) (_hx : sx < W) (_hy : sy < H)
    (_hstart : cellAt b ((startIndex W sx sy : Nat) : Int) = true)
    (hq : compress (W + 2) (initState W b n sx sy) path = some q)
    (hend : (replay (W + 2) false (initState W b n sx sy) path).2 = Outcome.blocked ∨
      (replay (W + 2) false (initState W b n sx sy) path).2 = Outcome.invalidChar ∨
      autoExt (W + 2) ((replay (W + 2) false (initState W b n sx sy) path).1).b
        ((replay (W + 2) false (initState W b n sx sy) path).1).i = none) :
    (replay (W + 2) false (initState W b n sx sy) path).2 =
      (replay (W + 2) true (initState W b n sx sy) q).2 :=
  compress_outcome (W + 2) (initState W b n sx sy) path q hq hend

/-- Counterexample to claim C2 as stated: on the fully open 2×2 board with
start (0,0), the explicit path `R` is rejected (2 cells missed), but the
compressed encoding derived from it by the rule — which deletes nothing and
is `R` as well — is accepted: after the forced run the rule deduces Down and
then Left without tokens and covers the board.  The two encodings of the
same path thus disagree on accept vs reject. -/
theorem claim_C2_counterexample :
    compress 4 exInit2 ("R".toList) = some ("R".toList) ∧
      (replay 4 false exInit2 ("R".toList)).2 = Outcome.incomplete 2 ∧
      (replay 4 true exInit2 ("R".toList)).2 = Outcome.success :=
  ⟨rfl, rfl, rfl⟩

/-- Witness for the amended C2: `RDLDR` on the spec's board compresses to
`R`, and both encodings succeed. -/
theorem claim_C2_witness :
    (replay 5 false exInit3 ("RDLDR".toList)).2 =
      (replay 5 true exInit3 ("R".toList)).2 :=
  claim_C2 3 3 ("X.......X".toList) exBoard3.1 exBoard3.2 1 0
    ("RDLDR".toList) ("R".toList) (by rfl) (by decide) (by decide) (by rfl)
    (by rfl) (Or.inr (Or.inr (by rfl)))

end Coil
